import Mathlib

/-!
Shallow embedding of the `kiwiidb/rag` repository (Go) in Lean 4.

The embedding covers:
* the response normalizer `parseResponse` of `filesearch/service.go`
  (text parts, citations, grounding chunks, grounding support),
* the prompt composition of `PromptWithHistory` in `filesearch/service.go`,
  together with the dynamic-typing behaviour of its `interface` argument
  as exercised by `Handler.Query` in `filesearch/handler.go`,
* the source-deduplication loop of `Handler.Query` in `filesearch/handler.go`,
* the ingestion loop of `cmd/cao-uploader/main.go`, including the file-name
  derivation via Go's `path/filepath.Base` (Unix separator).

Go pointers that may be nil are modelled as `Option`; a nil-pointer
dereference is modelled as `Except.error ()` (a Go runtime panic aborts the
whole computation, which `Except` error propagation mirrors).  Machine
integers from the Go API (`int32` offsets converted to `int`) are modelled
as `Int`; the conversion `int(x)` for `int32` values is exact, so no
wrap-around modelling is needed.
-/

namespace Rag

/-! ### Data model of package `filesearch` (service.go, handler.go) -/

/-- `filesearch.HistoryMessage` (handler.go): one conversation turn. -/
structure HistoryMessage where
  role : String
  content : String
deriving DecidableEq, Repr

/-- `filesearch.Source` (service.go): a source document reference. -/
structure Source where
  title : String
  uri : String
deriving DecidableEq, Repr

/-- `filesearch.Citation` (service.go): a citation with character offsets.
Go stores `int` (converted from the API's `int32`), modelled as `Int`. -/
structure Citation where
  startIndex : Int
  endIndex : Int
  sources : List Source
deriving DecidableEq, Repr

/-- `filesearch.WebGroundingChunk` (service.go). -/
structure WebGroundingChunk where
  uri : String
  title : String
deriving DecidableEq, Repr

/-- `filesearch.FileGroundingChunk` (service.go). -/
structure FileGroundingChunk where
  fileName : String
  uri : String
deriving DecidableEq, Repr

/-- `filesearch.GroundingChunk` (service.go): both fields are pointers in Go
(`nil` = absent), so both are `Option` here; the Go struct places no
exclusivity constraint on them. -/
structure GroundingChunk where
  web : Option WebGroundingChunk := none
  file : Option FileGroundingChunk := none
deriving DecidableEq, Repr

/-- `filesearch.GroundingSupport` (service.go). -/
structure GroundingSupport where
  groundingChunks : List GroundingChunk
  webSearchQueries : List String
deriving DecidableEq, Repr

/-- `filesearch.PromptResponse` (service.go). -/
structure PromptResponse where
  parts : List String
  citations : List Citation
  groundingSupport : Option GroundingSupport := none
deriving DecidableEq, Repr

/-- `filesearch.SourceDocument` (handler.go). -/
structure SourceDocument where
  fileName : String
  uri : String
deriving DecidableEq, Repr

/-! ### Raw `genai` response shape consumed by `parseResponse`

Only the fields that `parseResponse` reads are modelled; every Go pointer
field is an `Option`. -/

/-- A text part of a raw candidate (`genai.Part.Text`). -/
structure RawPart where
  text : String
deriving DecidableEq, Repr

/-- A raw candidate's content (`genai.Content`); `Parts` is a slice. -/
structure RawContent where
  parts : List RawPart
deriving DecidableEq, Repr

/-- A raw citation entry (`genai.Citation`): offsets plus optional URI/title
(empty string = absent, as in the Go API). -/
structure RawCitation where
  startIndex : Int
  endIndex : Int
  uri : String
  title : String
deriving DecidableEq, Repr

/-- `genai.CitationMetadata`. -/
structure RawCitationMetadata where
  citations : List RawCitation
deriving DecidableEq, Repr

/-- `genai.GroundingChunkWeb`. -/
structure RawWeb where
  uri : String
  title : String
deriving DecidableEq, Repr

/-- `genai.GroundingChunkRetrievedContext`. -/
structure RawRetrievedContext where
  title : String
  uri : String
deriving DecidableEq, Repr

/-- A raw grounding chunk (`genai.GroundingChunk`): `Web` and
`RetrievedContext` are pointers in Go. -/
structure RawGroundingChunk where
  web : Option RawWeb := none
  retrievedContext : Option RawRetrievedContext := none
deriving DecidableEq, Repr

/-- `genai.GroundingMetadata` (the fields `parseResponse` reads). -/
structure RawGroundingMetadata where
  groundingChunks : List RawGroundingChunk
  webSearchQueries : List String
deriving DecidableEq, Repr

/-- `genai.Candidate`: `Content`, `CitationMetadata` and `GroundingMetadata`
are pointers in Go, hence `Option` here. -/
structure Candidate where
  content : Option RawContent := none
  citationMetadata : Option RawCitationMetadata := none
  groundingMetadata : Option RawGroundingMetadata := none
deriving DecidableEq, Repr

/-- `genai.GenerateContentResponse` (the field `parseResponse` reads). -/
structure GenerateContentResponse where
  candidates : List Candidate
deriving DecidableEq, Repr

/-! ### The response normalizer (`parseResponse`, service.go lines 287-353) -/

/-- The inner text-part loop of `parseResponse` (service.go lines 296-300):
append `part.Text` for every part whose text is non-empty, in order. -/
def parseParts (ps : List RawPart) : List String :=
  ps.filterMap (fun p => if p.text = "" then none else some p.text)

/-- The citation normalization of `parseResponse` (service.go lines 304-320):
offsets are copied; a `Source` is appended exactly when the raw URI is
non-empty. -/
def normalizeCitation (c : RawCitation) : Citation :=
  { startIndex := c.startIndex
    endIndex := c.endIndex
    sources := if c.uri ≠ "" then [{ title := c.title, uri := c.uri }] else [] }

/-- The grounding-chunk normalization of `parseResponse` (service.go lines
330-345): `gc.Web` is set when the raw chunk has web fields, `gc.File` is
set when it has retrieved-context fields with a non-empty URI; the two
conditions are tested independently. -/
def normalizeChunk (ch : RawGroundingChunk) : GroundingChunk :=
  { web := ch.web.map (fun w => { uri := w.uri, title := w.title })
    file :=
      match ch.retrievedContext with
      | some rc => if rc.uri ≠ "" then some { fileName := rc.title, uri := rc.uri } else none
      | none => none }

/-- The grounding-metadata normalization of `parseResponse` (service.go
lines 324-348): the accumulator's `GroundingSupport` is overwritten with
this value whenever a candidate carries grounding metadata. -/
def normalizeGroundingMetadata (gm : RawGroundingMetadata) : GroundingSupport :=
  { groundingChunks := gm.groundingChunks.map normalizeChunk
    webSearchQueries := gm.webSearchQueries }

/-- One iteration of the candidate loop of `parseResponse` (service.go lines
294-350).  Go ranges over `cand.Content.Parts`; when `cand.Content` is the
nil pointer this dereferences nil and the program panics, modelled as
`Except.error ()`. -/
def stepCandidate (acc : PromptResponse) (cand : Candidate) : Except Unit PromptResponse :=
  match cand.content with
  | none => Except.error ()
  | some content =>
    let acc1 : PromptResponse := { acc with parts := acc.parts ++ parseParts content.parts }
    let acc2 : PromptResponse :=
      match cand.citationMetadata with
      | some cm =>
        if cm.citations.length > 0 then
          { acc1 with citations := acc1.citations ++ cm.citations.map normalizeCitation }
        else acc1
      | none => acc1
    let acc3 : PromptResponse :=
      match cand.groundingMetadata with
      | some gm => { acc2 with groundingSupport := some (normalizeGroundingMetadata gm) }
      | none => acc2
    Except.ok acc3

/-- The candidate loop of `parseResponse`, threading the accumulator; a
panic (`Except.error`) aborts the remaining iterations, as in Go. -/
def parseResponseAux : PromptResponse → List Candidate → Except Unit PromptResponse
  | acc, [] => Except.ok acc
  | acc, c :: cs =>
    match stepCandidate acc c with
    | Except.ok acc2 => parseResponseAux acc2 cs
    | Except.error e => Except.error e

/-- `Service.parseResponse` (service.go lines 287-353): starts from empty
parts and citations and a nil `GroundingSupport`. -/
def parseResponse (resp : GenerateContentResponse) : Except Unit PromptResponse :=
  parseResponseAux { parts := [], citations := [], groundingSupport := none } resp.candidates

/-! ### The answer and source assembly of `Handler.Query` (handler.go) -/

/-- The answer concatenation of `Handler.Query` (handler.go lines 112-114):
`response.Answer += part` over all parts in order. -/
def combineAnswer (parts : List String) : String :=
  parts.foldl (fun acc part => acc ++ part) ""

/-- The source-extraction loop of `Handler.Query` (handler.go lines
117-128), with the `seenSources` set modelled as the list of file names
seen so far. -/
def extractSourcesAux (seen : List String) : List GroundingChunk → List SourceDocument
  | [] => []
  | ch :: rest =>
    match ch.file with
    | some f =>
      if seen.contains f.fileName then extractSourcesAux seen rest
      else { fileName := f.fileName, uri := f.uri } :: extractSourcesAux (f.fileName :: seen) rest
    | none => extractSourcesAux seen rest

/-- The derived top-level source list of `Handler.Query`: scan the grounding
chunks with an initially empty seen-set. -/
def extractSources (chunks : List GroundingChunk) : List SourceDocument :=
  extractSourcesAux [] chunks

/-! ### Prompt composition of `PromptWithHistory` (service.go lines 249-284)

The Go signature is `PromptWithHistory(ctx, prompt string, storeName string,
history interface)`, i.e. the history parameter is dynamically typed.  The
embedding models the dynamic values that can reach this parameter and the
two runtime type tests the function performs:

* `Handler.Query` (handler.go line 96) passes `req.History`, a value of
  dynamic type `[]HistoryMessage`;
* the function first tests `history != nil`, then asserts
  `history.([]interface)` — an assertion that succeeds only when the
  dynamic type is literally a slice of empty-interface values, which
  `[]HistoryMessage` is not;
* each element is then asserted to be a `map[string]interface`; elements
  of any other dynamic type are silently skipped.

Map values are modelled as strings (conversation turns carry string role
and content); a missing key yields Go's nil interface, which
`fmt.Sprintf` with verb `s` renders as `<nil>`. -/

/-- An element of a `[]interface` history slice: either a
`map[string]interface` (string-valued entries) or a value of some other
dynamic type, which fails the element type assertion. -/
inductive HistElem where
  | strMap (entries : List (String × String))
  | otherElem
deriving DecidableEq, Repr

/-- A dynamic value passed as the `history interface` argument. -/
inductive HistoryArg where
  /-- the untyped nil interface -/
  | goNil
  /-- a value of dynamic type `[]HistoryMessage` (what the handler passes) -/
  | historyMsgs (ms : List HistoryMessage)
  /-- a value of dynamic type `[]interface` -/
  | ifaceSlice (xs : List HistElem)
  /-- a value of any other dynamic type -/
  | otherVal
deriving DecidableEq, Repr

/-- The `history != nil` test: only the untyped nil interface is nil. -/
def HistoryArg.isGoNil : HistoryArg → Bool
  | .goNil => true
  | _ => false

/-- The type assertion `history.([]interface)`: succeeds only when the
dynamic type is exactly a slice of interface values.  In particular it
fails on `[]HistoryMessage`. -/
def asIfaceSlice : HistoryArg → Option (List HistElem)
  | .ifaceSlice xs => some xs
  | _ => none

/-- Go map lookup `m[k]` followed by `fmt.Sprintf` verb-`s` rendering: a
present value renders as itself, a missing key is the nil interface and
renders as `<nil>`. -/
def mapLookupFmt (entries : List (String × String)) (k : String) : String :=
  match entries.lookup k with
  | some v => v
  | none => "<nil>"

/-- The prompt composition of `PromptWithHistory` (service.go lines
256-271): start from the bare prompt; when the history is non-nil, asserts
to `[]interface`, and is non-empty, build the transcript under the fixed
preamble and append the current question; otherwise the prompt is sent
unmodified. -/
def buildFullPrompt (prompt : String) (history : HistoryArg) : String :=
  if history.isGoNil then prompt
  else
    match asIfaceSlice history with
    | some historySlice =>
      if historySlice.length > 0 then
        let contextStr := historySlice.foldl
          (fun acc msg =>
            match msg with
            | HistElem.strMap m =>
              acc ++ mapLookupFmt m "role" ++ ": " ++ mapLookupFmt m "content" ++ "\n"
            | HistElem.otherElem => acc)
          "Previous conversation:\n"
        contextStr ++ "\nCurrent question: " ++ prompt
      else prompt
    | none => prompt

/-- The history argument as passed by `Handler.Query` (handler.go line 96):
`req.History` has static (and dynamic) type `[]HistoryMessage`. -/
def handlerHistoryArg (hs : List HistoryMessage) : HistoryArg :=
  HistoryArg.historyMsgs hs

/-- The prompt that grounded generation receives on the HTTP path:
`Handler.Query` → `PromptWithHistory`. -/
def handlerPrompt (question : String) (hs : List HistoryMessage) : String :=
  buildFullPrompt question (handlerHistoryArg hs)

/-! ### The ingestion loop of `cmd/cao-uploader/main.go` (lines 62-111) -/

/-- Go's `path/filepath.Base` with the Unix separator `/` (the behaviour
compiled into the uploader container): `Base("") = "."`; otherwise strip
trailing separators; if nothing remains the path was all separators and the
result is `"/"`; otherwise the segment after the last separator. -/
def filepathBase (path : String) : String :=
  if path = "" then "."
  else
    let stripped := (path.data.reverse.dropWhile (fun c => c = '/')).reverse
    if stripped = [] then "/"
    else ((stripped.reverse.takeWhile (fun c => c ≠ '/')).reverse).asString

/-- The display-name derivation of the uploader (main.go lines 79-82):
`filepath.Base` of the source URL, with the positional fallback
`document_<i+1>.pdf` when that yields `""` or `"."` (`i` is the 0-based
loop index, so the fallback uses the 1-based position). -/
def deriveFileName (url : String) (i : Nat) : String :=
  let fileName := filepathBase url
  if fileName = "" ∨ fileName = "." then "document_" ++ Nat.repr (i + 1) ++ ".pdf"
  else fileName

/-- The synthesized fallback name for 0-based position `i`
(`fmt.Sprintf("document_%d.pdf", i+1)`). -/
def fallbackName (i : Nat) : String :=
  "document_" ++ Nat.repr (i + 1) ++ ".pdf"

/-- A network effect performed by the ingestion loop: a document fetch
(`scraper.DownloadDocument`, main.go line 95) or an upload attempt
(`service.UploadDocumentWithURL`, main.go line 102).  Each event records
the candidate's URL and derived display name. -/
inductive IngestEvent where
  | fetch (url : String) (fileName : String)
  | uploadDoc (url : String) (fileName : String)
deriving DecidableEq, Repr

/-- The display name an event concerns. -/
def IngestEvent.docName : IngestEvent → String
  | .fetch _ n => n
  | .uploadDoc _ n => n

/-- The external world of one ingestion run: `download url` returns the
document bytes on success and `none` on failure; `uploadOk data name url`
tells whether the upload attempt succeeds.  Both are fixed functions, so
re-running against an unchanged environment is deterministic. -/
structure IngestEnv (α : Type) where
  download : String → Option α
  uploadOk : α → String → String → Bool

/-- The observable outcome of an ingestion run: the two counters printed by
the uploader, the display names successfully uploaded (most recent first),
and the network events performed (in order). -/
structure IngestResult where
  uploadedCount : Nat := 0
  skippedCount : Nat := 0
  uploadedNames : List String := []
  events : List IngestEvent := []
deriving DecidableEq, Repr

/-- The candidate loop of the uploader (main.go lines 78-109) starting at
loop index `i`: derive the display name; skip (counting) when it is
already in `existingFiles`; otherwise fetch — on fetch failure continue;
otherwise attempt the upload — on upload failure continue, on success
count the upload.  `existingFiles` is built once before the loop and never
extended during it, exactly as in the Go code. -/
def ingestFrom {α : Type} (env : IngestEnv α) (existingFiles : List String) :
    Nat → List String → IngestResult
  | _, [] => {}
  | i, url :: rest =>
    let fileName := deriveFileName url i
    if existingFiles.contains fileName then
      let r := ingestFrom env existingFiles (i + 1) rest
      { r with skippedCount := r.skippedCount + 1 }
    else
      match env.download url with
      | none =>
        let r := ingestFrom env existingFiles (i + 1) rest
        { r with events := IngestEvent.fetch url fileName :: r.events }
      | some data =>
        let r := ingestFrom env existingFiles (i + 1) rest
        if env.uploadOk data fileName url then
          { r with
              uploadedCount := r.uploadedCount + 1
              uploadedNames := fileName :: r.uploadedNames
              events := IngestEvent.fetch url fileName ::
                IngestEvent.uploadDoc url fileName :: r.events }
        else
          { r with
              events := IngestEvent.fetch url fileName ::
                IngestEvent.uploadDoc url fileName :: r.events }

/-- One ingestion run over the candidate URL list against a store whose
existing documents carry the display names `existingFiles`. -/
def ingest {α : Type} (env : IngestEnv α) (existingFiles : List String)
    (urls : List String) : IngestResult :=
  ingestFrom env existingFiles 0 urls

/-- The number of candidates (starting at loop index `i`) whose derived
display name is already present in `ex` — the candidates the uploader must
skip. -/
def presentCount (ex : List String) : Nat → List String → Nat
  | _, [] => 0
  | i, url :: rest =>
    (if ex.contains (deriveFileName url i) then 1 else 0) + presentCount ex (i + 1) rest

/-! ### Specification-side definitions

These follow the wording of the specification, to be compared with the
definitions translated from the Go source. -/

/-- Spec §4.3 "Sources": keep the first occurrence of each distinct file
name, skip subsequent repeats. -/
def specFirstOcc : List FileGroundingChunk → List FileGroundingChunk
  | [] => []
  | c :: rest =>
    c :: specFirstOcc (rest.filter (fun d => !(d.fileName == c.fileName)))
termination_by l => l.length
decreasing_by
  simp only [List.length_cons]
  exact Nat.lt_succ_of_le (List.length_filter_le _ rest)

/-- Spec §4.3 "Answer text": every non-empty text part across every
candidate the model returned, in emitted order. -/
def specAnswerTexts (resp : GenerateContentResponse) : List String :=
  resp.candidates.flatMap (fun c =>
    ((match c.content with
      | some ct => ct.parts
      | none => []).map RawPart.text).filter (fun t => !(t == "")))

/-- The raw citation entries a candidate carries (empty when the citation
metadata pointer is nil). -/
def rawCitationsOf (c : Candidate) : List RawCitation :=
  match c.citationMetadata with
  | some cm => cm.citations
  | none => []

/-- The grounding metadata of the last candidate that carries one, if any:
the value that survives the overwrite in the candidate loop of
`parseResponse`. -/
def lastGroundingMetadata : List Candidate → Option RawGroundingMetadata
  | [] => none
  | c :: cs =>
    match lastGroundingMetadata cs with
    | some gm => some gm
    | none => c.groundingMetadata

/-- The text parts one candidate contributes to the answer (empty when the
candidate has no content; `parseResponse` only returns such lists when every
candidate's content is present). -/
def candTexts (c : Candidate) : List String :=
  match c.content with
  | some ct => parseParts ct.parts
  | none => []

/-! ### Concrete sample payloads

Closed test vectors used to instantiate the theorems below at concrete
inputs. -/

/-- A response with one candidate carrying a single citation with offsets
10..25 and no URI. -/
def respCitationSample : GenerateContentResponse :=
  { candidates :=
      [{ content := some { parts := [] }
         citationMetadata :=
           some { citations := [{ startIndex := 10, endIndex := 25, uri := "", title := "" }] }
         groundingMetadata := none }] }

/-- The normalized result of `respCitationSample`. -/
def promptCitationSample : PromptResponse :=
  { parts := []
    citations := [{ startIndex := 10, endIndex := 25, sources := [] }]
    groundingSupport := none }

/-- The raw citation entry of `respCitationSample`. -/
def rawCitationSample : RawCitation :=
  { startIndex := 10, endIndex := 25, uri := "", title := "" }

/-- A response with two candidates whose text parts contain empty strings. -/
def respAnswerSample : GenerateContentResponse :=
  { candidates :=
      [{ content := some { parts := [{ text := "Hello" }, { text := "" }, { text := " " }] }
         citationMetadata := none
         groundingMetadata := none },
       { content := some { parts := [{ text := "world" }, { text := "" }] }
         citationMetadata := none
         groundingMetadata := none }] }

/-- The normalized result of `respAnswerSample`. -/
def promptAnswerSample : PromptResponse :=
  { parts := ["Hello", " ", "world"], citations := [], groundingSupport := none }

/-- A response with two candidates that both carry grounding metadata. -/
def respGroundingSample : GenerateContentResponse :=
  { candidates :=
      [{ content := some { parts := [] }
         citationMetadata := none
         groundingMetadata :=
           some { groundingChunks :=
                    [{ web := none, retrievedContext := some { title := "a.pdf", uri := "ua" } }]
                  webSearchQueries := ["q1"] } },
       { content := some { parts := [] }
         citationMetadata := none
         groundingMetadata :=
           some { groundingChunks :=
                    [{ web := none, retrievedContext := some { title := "b.pdf", uri := "ub" } }]
                  webSearchQueries := ["q2"] } }] }

/-- The normalized result of `respGroundingSample`: only the second
candidate's grounding data survives. -/
def promptGroundingSample : PromptResponse :=
  { parts := []
    citations := []
    groundingSupport :=
      some { groundingChunks := [{ web := none, file := some { fileName := "b.pdf", uri := "ub" } }]
             webSearchQueries := ["q2"] } }

/-- A raw grounding chunk carrying both web fields and retrieved-context
fields with a non-empty URI. -/
def rawBothChunkSample : RawGroundingChunk :=
  { web := some { uri := "w", title := "t" }
    retrievedContext := some { title := "f", uri := "u" } }

/-- A response whose single candidate has nil `Content`. -/
def respNilContentSample : GenerateContentResponse :=
  { candidates := [{ content := none, citationMetadata := none, groundingMetadata := none }] }

/-! ### Decimal readback, for the injectivity of `Nat.repr`

`Nat.repr n` is `(Nat.toDigits 10 n).asString`.  Reading the digit
characters back as a base-10 number recovers `n`, which yields
injectivity of the fallback names `document_<i+1>.pdf`. -/

/-- The numeric value of a decimal digit character. -/
def digitVal (c : Char) : Nat :=
  c.toNat - '0'.toNat

/-- Fold a digit-character list back into the number it denotes. -/
def readBack (cs : List Char) : Nat :=
  cs.foldl (fun acc c => acc * 10 + digitVal c) 0

end Rag

namespace Rag

theorem contains_append (l₁ l₂ : List String) (x : String) :
    (l₁ ++ l₂).contains x = (l₁.contains x || l₂.contains x) := by
  simp [List.contains, List.elem_eq_mem]

theorem ingest_count_eq_length {α : Type} (env : IngestEnv α) (ex : List String) :
    ∀ (urls : List String) (i : Nat),
      (ingestFrom env ex i urls).uploadedCount = (ingestFrom env ex i urls).uploadedNames.length := by
  intro urls
  induction urls with
  | nil => intro i; simp [ingestFrom]
  | cons url rest ih =>
    intro i
    simp only [ingestFrom]
    cases hc : ex.contains (deriveFileName url i) with
    | true => simpa [hc] using ih (i + 1)
    | false =>
      cases hd : env.download url with
      | none => simpa [hc, hd] using ih (i + 1)
      | some data =>
        cases hu : env.uploadOk data (deriveFileName url i) url with
        | true => simpa [hc, hd, hu] using ih (i + 1)
        | false => simpa [hc, hd, hu] using ih (i + 1)

theorem ingest_skipped_eq_presentCount {α : Type} (env : IngestEnv α) (ex : List String) :
    ∀ (urls : List String) (i : Nat),
      (ingestFrom env ex i urls).skippedCount = presentCount ex i urls := by
  intro urls
  induction urls with
  | nil => intro i; simp [ingestFrom, presentCount]
  | cons url rest ih =>
    intro i
    simp only [ingestFrom, presentCount]
    cases hc : ex.contains (deriveFileName url i) with
    | true => simp [hc, ih (i + 1)]; omega
    | false =>
      cases hd : env.download url with
      | none => simp [hc, hd, ih (i + 1)]
      | some data =>
        cases hu : env.uploadOk data (deriveFileName url i) url with
        | true => simp [hc, hd, hu, ih (i + 1)]
        | false => simp [hc, hd, hu, ih (i + 1)]

theorem contains_false_notMem {x : String} {l : List String}
    (h : l.contains x = false) : x ∉ l := by
  simpa [List.contains, List.elem_eq_mem] using h

theorem ingest_names_not_in_existing {α : Type} (env : IngestEnv α) (ex : List String) :
    ∀ (urls : List String) (i : Nat),
      ((ingestFrom env ex i urls).uploadedNames.all (fun n => !(ex.contains n))) = true := by
  intro urls
  induction urls with
  | nil => intro i; simp [ingestFrom]
  | cons url rest ih =>
    intro i
    simp only [ingestFrom]
    cases hc : ex.contains (deriveFileName url i) with
    | true => simpa [hc] using ih (i + 1)
    | false =>
      cases hd : env.download url with
      | none => simpa [hc, hd] using ih (i + 1)
      | some data =>
        cases hu : env.uploadOk data (deriveFileName url i) url with
        | true =>
          have hmem := contains_false_notMem hc
          simpa [hc, hd, hu, hmem] using ih (i + 1)
        | false => simpa [hc, hd, hu] using ih (i + 1)

theorem ingest_events_not_in_existing {α : Type} (env : IngestEnv α) (ex : List String) :
    ∀ (urls : List String) (i : Nat),
      ((ingestFrom env ex i urls).events.all (fun e => !(ex.contains e.docName))) = true := by
  intro urls
  induction urls with
  | nil => intro i; simp [ingestFrom]
  | cons url rest ih =>
    intro i
    simp only [ingestFrom]
    cases hc : ex.contains (deriveFileName url i) with
    | true => simpa [hc] using ih (i + 1)
    | false =>
      cases hd : env.download url with
      | none =>
        have hmem := contains_false_notMem hc
        simpa [hc, hd, IngestEvent.docName, hmem] using ih (i + 1)
      | some data =>
        have hmem := contains_false_notMem hc
        cases hu : env.uploadOk data (deriveFileName url i) url with
        | true => simpa [hc, hd, hu, IngestEvent.docName, hmem] using ih (i + 1)
        | false => simpa [hc, hd, hu, IngestEvent.docName, hmem] using ih (i + 1)

theorem contains_true_mem {x : String} {l : List String}
    (h : l.contains x = true) : x ∈ l := by
  simpa [List.contains, List.elem_eq_mem] using h

theorem mem_contains_true {x : String} {l : List String}
    (h : x ∈ l) : l.contains x = true := by
  simp [List.contains, List.elem_eq_mem, h]

theorem ingest_names_mono {α : Type} (env : IngestEnv α) (s t : List String)
    (hsub : ∀ x, x ∈ s → x ∈ t) :
    ∀ (urls : List String) (i : Nat) (n : String),
      n ∈ (ingestFrom env t i urls).uploadedNames →
      n ∈ (ingestFrom env s i urls).uploadedNames := by
  intro urls
  induction urls with
  | nil => intro i n h; simp [ingestFrom] at h
  | cons url rest ih =>
    intro i n
    simp only [ingestFrom]
    cases hcs : s.contains (deriveFileName url i) with
    | true =>
      have hct : t.contains (deriveFileName url i) = true :=
        mem_contains_true (hsub _ (contains_true_mem hcs))
      simp only [hcs, hct]
      intro h
      exact ih (i + 1) n (by simp at h; exact h)
    | false =>
      cases hct : t.contains (deriveFileName url i) with
      | true =>
        cases hd : env.download url with
        | none =>
          simp only [hcs, hct, hd]
          intro h
          exact ih (i + 1) n (by simpa using h)
        | some data =>
          cases hu : env.uploadOk data (deriveFileName url i) url with
          | true =>
            simp only [hcs, hct, hd, hu]
            intro h
            simp only [Bool.false_eq_true, if_false, if_true, List.mem_cons]
            exact Or.inr (ih (i + 1) n (by simpa using h))
          | false =>
            simp only [hcs, hct, hd, hu]
            intro h
            exact ih (i + 1) n (by simpa using h)
      | false =>
        cases hd : env.download url with
        | none =>
          simp only [hcs, hct, hd]
          intro h
          simpa using ih (i + 1) n (by simpa using h)
        | some data =>
          cases hu : env.uploadOk data (deriveFileName url i) url with
          | true =>
            simp only [hcs, hct, hd, hu]
            intro h
            rcases (by simpa using h : n = deriveFileName url i ∨
                n ∈ (ingestFrom env t (i + 1) rest).uploadedNames) with h1 | h2
            · simp [h1]
            · simp only [Bool.false_eq_true, if_false, if_true, List.mem_cons]
              exact Or.inr (ih (i + 1) n h2)
          | false =>
            simp only [hcs, hct, hd, hu]
            intro h
            simpa using ih (i + 1) n (by simpa using h)

theorem ingest_second_names_nil {α : Type} (env : IngestEnv α) (ex : List String)
    (urls : List String) :
    ∀ i : Nat,
      (ingestFrom env (ex ++ (ingestFrom env ex i urls).uploadedNames) i urls).uploadedNames
        = [] := by
  induction urls with
  | nil => intro i; simp [ingestFrom]
  | cons url rest ih =>
    intro i
    cases hc : ex.contains (deriveFileName url i) with
    | true =>
      have hmem : deriveFileName url i ∈ ex := contains_true_mem hc
      have hnames : (ingestFrom env ex i (url :: rest)).uploadedNames
          = (ingestFrom env ex (i + 1) rest).uploadedNames := by
        simp [ingestFrom, hmem]
      rw [hnames]
      have hmem2 : deriveFileName url i
          ∈ ex ++ (ingestFrom env ex (i + 1) rest).uploadedNames :=
        List.mem_append_left _ hmem
      simp only [ingestFrom]
      simp [hmem2]
      exact ih (i + 1)
    | false =>
      have hnmem : deriveFileName url i ∉ ex := contains_false_notMem hc
      cases hd : env.download url with
      | none =>
        have hnames : (ingestFrom env ex i (url :: rest)).uploadedNames
            = (ingestFrom env ex (i + 1) rest).uploadedNames := by
          simp [ingestFrom, hnmem, hd]
        rw [hnames]
        by_cases hm2 : deriveFileName url i
            ∈ ex ++ (ingestFrom env ex (i + 1) rest).uploadedNames
        · simp only [ingestFrom]
          simp [hm2]
          exact ih (i + 1)
        · simp only [ingestFrom]
          simp [hm2, hd]
          exact ih (i + 1)
      | some data =>
        cases hu : env.uploadOk data (deriveFileName url i) url with
        | false =>
          have hnames : (ingestFrom env ex i (url :: rest)).uploadedNames
              = (ingestFrom env ex (i + 1) rest).uploadedNames := by
            simp [ingestFrom, hnmem, hd, hu]
          rw [hnames]
          by_cases hm2 : deriveFileName url i
              ∈ ex ++ (ingestFrom env ex (i + 1) rest).uploadedNames
          · simp only [ingestFrom]
            simp [hm2]
            exact ih (i + 1)
          · simp only [ingestFrom]
            simp [hm2, hd, hu]
            exact ih (i + 1)
        | true =>
          have hnames : (ingestFrom env ex i (url :: rest)).uploadedNames
              = deriveFileName url i :: (ingestFrom env ex (i + 1) rest).uploadedNames := by
            simp [ingestFrom, hnmem, hd, hu]
          rw [hnames]
          have hm2 : deriveFileName url i ∈ ex ++ deriveFileName url i ::
              (ingestFrom env ex (i + 1) rest).uploadedNames := by simp
          simp only [ingestFrom]
          simp [hm2]
          have hsub : ∀ x, x ∈ ex ++ (ingestFrom env ex (i + 1) rest).uploadedNames →
              x ∈ ex ++ deriveFileName url i ::
                (ingestFrom env ex (i + 1) rest).uploadedNames := by
            intro x hx
            simp only [List.mem_append, List.mem_cons] at hx ⊢
            tauto
          rw [List.eq_nil_iff_forall_not_mem]
          intro n hn
          have hmono := ingest_names_mono env
            (ex ++ (ingestFrom env ex (i + 1) rest).uploadedNames)
            (ex ++ deriveFileName url i :: (ingestFrom env ex (i + 1) rest).uploadedNames)
            hsub rest (i + 1) n hn
          rw [ih (i + 1)] at hmono
          simp at hmono

theorem ingest_second_uploaded_zero {α : Type} (env : IngestEnv α)
    (existingFiles urls : List String) :
    (ingest env (existingFiles ++ (ingest env existingFiles urls).uploadedNames)
      urls).uploadedCount = 0 := by
  rw [ingest, ingest_count_eq_length, ingest, ingest_second_names_nil]
  rfl

/-! ### Injectivity of the synthesized fallback names -/

theorem toDigitsCore_append : ∀ (fuel n : Nat) (ds : List Char),
    Nat.toDigitsCore 10 fuel n ds = Nat.toDigitsCore 10 fuel n [] ++ ds
  | 0, _, _ => by simp [Nat.toDigitsCore]
  | fuel+1, n, ds => by
    simp only [Nat.toDigitsCore]
    split
    · rfl
    · rw [toDigitsCore_append fuel (n / 10) (_ :: ds),
          toDigitsCore_append fuel (n / 10) [_]]
      simp

theorem toDigitsCore_fuel : ∀ (n f₁ f₂ : Nat), n < f₁ → n < f₂ →
    Nat.toDigitsCore 10 f₁ n [] = Nat.toDigitsCore 10 f₂ n []
  | n, f₁+1, f₂+1, h₁, h₂ => by
    simp only [Nat.toDigitsCore]
    split
    · rfl
    · next h =>
      have hn : 0 < n := by
        rcases Nat.eq_zero_or_pos n with h0 | h0
        · subst h0; simp at h
        · exact h0
      have hlt : n / 10 < n := Nat.div_lt_self hn (by decide)
      rw [toDigitsCore_append f₁, toDigitsCore_append f₂,
          toDigitsCore_fuel (n / 10) f₁ f₂ (by omega) (by omega)]

theorem digitVal_digitChar {n : Nat} (h : n < 10) : digitVal (Nat.digitChar n) = n := by
  interval_cases n <;> decide

theorem readBack_append (l : List Char) (c : Char) :
    readBack (l ++ [c]) = readBack l * 10 + digitVal c := by
  simp [readBack, List.foldl_append]

theorem readBack_toDigits : ∀ n : Nat, readBack (Nat.toDigitsCore 10 (n + 1) n []) = n
  | n => by
    simp only [Nat.toDigitsCore]
    split
    · next h =>
      have h10 : n < 10 := by omega
      have hmod : n % 10 = n := Nat.mod_eq_of_lt h10
      simp [readBack, hmod, digitVal_digitChar h10]
    · next h =>
      have hn : 0 < n := by
        rcases Nat.eq_zero_or_pos n with h0 | h0
        · subst h0; simp at h
        · exact h0
      have hlt : n / 10 < n := Nat.div_lt_self hn (by decide)
      rw [toDigitsCore_append n (n / 10),
          toDigitsCore_fuel (n / 10) n (n / 10 + 1) (by omega) (by omega),
          readBack_append, readBack_toDigits (n / 10),
          digitVal_digitChar (by omega : n % 10 < 10)]
      omega

/-- Decimal `Nat.repr` is injective. -/
theorem natRepr_inj {a b : Nat} (h : Nat.repr a = Nat.repr b) : a = b := by
  have hd : Nat.toDigits 10 a = Nat.toDigits 10 b := by
    have hdata : (Nat.toDigits 10 a).asString.data = (Nat.toDigits 10 b).asString.data := by
      rw [show (Nat.toDigits 10 a).asString = Nat.repr a from rfl,
          show (Nat.toDigits 10 b).asString = Nat.repr b from rfl, h]
    simpa [List.asString] using hdata
  have ha := readBack_toDigits a
  have hb := readBack_toDigits b
  rw [show Nat.toDigitsCore 10 (a + 1) a [] = Nat.toDigits 10 a from rfl, hd] at ha
  rw [show Nat.toDigitsCore 10 (b + 1) b [] = Nat.toDigits 10 b from rfl] at hb
  omega

/-- Two synthesized fallback names agree exactly when they were built for
the same batch position. -/
theorem fallbackName_inj (i j : Nat) : fallbackName i = fallbackName j ↔ i = j := by
  constructor
  · intro h
    have hdata := congrArg String.data h
    simp only [fallbackName, String.data_append] at hdata
    have hmid : (Nat.repr (i + 1)).data = (Nat.repr (j + 1)).data :=
      List.append_cancel_left (List.append_cancel_right hdata)
    have : Nat.repr (i + 1) = Nat.repr (j + 1) := String.ext hmid
    have := natRepr_inj this
    omega
  · intro h
    rw [h]

/-! ### Characterization of `parseResponse` and the source dedup loop -/


theorem stepCandidate_ok {acc acc2 : PromptResponse} {c : Candidate}
    (h : stepCandidate acc c = Except.ok acc2) :
    c.content.isSome = true
    ∧ acc2.parts = acc.parts ++ candTexts c
    ∧ acc2.citations = acc.citations ++ (rawCitationsOf c).map normalizeCitation
    ∧ acc2.groundingSupport = (match c.groundingMetadata with
        | some gm => some (normalizeGroundingMetadata gm)
        | none => acc.groundingSupport) := by
  cases hcont : c.content with
  | none => simp [stepCandidate, hcont] at h
  | some ct =>
    simp only [stepCandidate, hcont, Except.ok.injEq] at h
    subst h
    cases hcm : c.citationMetadata with
    | none =>
      cases hgm : c.groundingMetadata with
      | none => simp [hcm, hgm, candTexts, hcont, rawCitationsOf]
      | some gm => simp [hcm, hgm, candTexts, hcont, rawCitationsOf]
    | some cm =>
      by_cases hlen : cm.citations.length > 0
      · cases hgm : c.groundingMetadata with
        | none => simp [hcm, hgm, hlen, candTexts, hcont, rawCitationsOf]
        | some gm => simp [hcm, hgm, hlen, candTexts, hcont, rawCitationsOf]
      · have hnil : cm.citations = [] := List.length_eq_zero.mp (by omega)
        cases hgm : c.groundingMetadata with
        | none => simp [hcm, hgm, hlen, hnil, candTexts, hcont, rawCitationsOf]
        | some gm => simp [hcm, hgm, hlen, hnil, candTexts, hcont, rawCitationsOf]

theorem parseAux_ok : ∀ (cands : List Candidate) (acc p : PromptResponse),
    parseResponseAux acc cands = Except.ok p →
    p.parts = acc.parts ++ cands.flatMap candTexts
    ∧ p.citations = acc.citations ++ (cands.flatMap rawCitationsOf).map normalizeCitation
    ∧ p.groundingSupport = (match lastGroundingMetadata cands with
        | some gm => some (normalizeGroundingMetadata gm)
        | none => acc.groundingSupport) := by
  intro cands
  induction cands with
  | nil =>
    intro acc p h
    simp only [parseResponseAux, Except.ok.injEq] at h
    subst h
    simp [lastGroundingMetadata]
  | cons c cs ih =>
    intro acc p h
    simp only [parseResponseAux] at h
    cases hs : stepCandidate acc c with
    | error e => rw [hs] at h; simp at h
    | ok acc2 =>
      rw [hs] at h
      obtain ⟨hone, hparts, hcits, hgs⟩ := stepCandidate_ok hs
      obtain ⟨ihp, ihc, ihg⟩ := ih acc2 p h
      refine ⟨?_, ?_, ?_⟩
      · rw [ihp, hparts]
        simp [List.append_assoc]
      · rw [ihc, hcits]
        simp [List.append_assoc]
      · rw [ihg]
        simp only [lastGroundingMetadata]
        cases hlgm : lastGroundingMetadata cs with
        | some gm => simp
        | none => simp [hgs]



theorem extractSourcesAux_eq : ∀ (l : List GroundingChunk) (seen : List String),
    extractSourcesAux seen l
      = (specFirstOcc ((l.filterMap GroundingChunk.file).filter
          (fun c => !(seen.contains c.fileName)))).map
        (fun f => { fileName := f.fileName, uri := f.uri }) := by
  intro l
  induction l with
  | nil => intro seen; simp [extractSourcesAux, specFirstOcc]
  | cons ch rest ih =>
    intro seen
    cases hf : ch.file with
    | none =>
      have hL : extractSourcesAux seen (ch :: rest) = extractSourcesAux seen rest := by
        simp [extractSourcesAux, hf]
      have hR : ((ch :: rest).filterMap GroundingChunk.file).filter
          (fun c => !(seen.contains c.fileName))
          = (rest.filterMap GroundingChunk.file).filter
            (fun c => !(seen.contains c.fileName)) := by
        simp [List.filterMap_cons, hf]
      rw [hL, hR, ih seen]
    | some f =>
      cases hc : seen.contains f.fileName with
      | true =>
        have hmem : f.fileName ∈ seen := contains_true_mem hc
        have hL : extractSourcesAux seen (ch :: rest) = extractSourcesAux seen rest := by
          simp [extractSourcesAux, hf, hc, hmem]
        have hR : ((ch :: rest).filterMap GroundingChunk.file).filter
            (fun c => !(seen.contains c.fileName))
            = (rest.filterMap GroundingChunk.file).filter
              (fun c => !(seen.contains c.fileName)) := by
          simp [List.filterMap_cons, hf, hc, hmem]
        rw [hL, hR, ih seen]
      | false =>
        have hmem : f.fileName ∉ seen := contains_false_notMem hc
        have hL : extractSourcesAux seen (ch :: rest)
            = { fileName := f.fileName, uri := f.uri } ::
              extractSourcesAux (f.fileName :: seen) rest := by
          simp [extractSourcesAux, hf, hc, hmem]
        have hR : ((ch :: rest).filterMap GroundingChunk.file).filter
            (fun c => !(seen.contains c.fileName))
            = f :: (rest.filterMap GroundingChunk.file).filter
              (fun c => !(seen.contains c.fileName)) := by
          simp [List.filterMap_cons, hf, hc, hmem]
        rw [hL, hR, specFirstOcc, List.map_cons]
        congr 1
        rw [ih (f.fileName :: seen)]
        congr 2
        rw [List.filter_filter]
        apply List.filter_congr
        intro d _
        simp only [List.contains, List.elem]
        cases hdf : d.fileName == f.fileName <;> simp [hdf]



theorem parseParts_eq (ps : List RawPart) :
    parseParts ps = (ps.map RawPart.text).filter (fun t => !(t == "")) := by
  induction ps with
  | nil => rfl
  | cons p rest ih =>
    by_cases hp : p.text = ""
    · simp [parseParts, hp] at ih ⊢
      exact ih
    · simp [parseParts, hp] at ih ⊢
      exact ih

theorem specAnswerTexts_eq (resp : GenerateContentResponse) :
    specAnswerTexts resp = resp.candidates.flatMap candTexts := by
  unfold specAnswerTexts
  apply congrArg
  funext c
  cases hc : c.content <;> simp [candTexts, hc, parseParts_eq]

theorem extractSources_eq_spec (chunks : List GroundingChunk) :
    extractSources chunks
      = (specFirstOcc (chunks.filterMap GroundingChunk.file)).map
        (fun f => { fileName := f.fileName, uri := f.uri }) := by
  rw [extractSources, extractSourcesAux_eq]
  congr 2
  simp

/-! ### The claims -/

/-- Claim C1 (code evaluation at the failing input): the history that
`Handler.Query` passes to `PromptWithHistory` has dynamic type
`[]HistoryMessage`, so the `[]interface` type assertion inside
`PromptWithHistory` fails and the transcript is never built.  With history
`[{user, Q1}, {assistant, A1}]` and question `Q2` the prompt sent to
grounded generation is exactly `Q2`; in general, on the handler path the
question is sent unmodified for every history. -/
theorem C1_handler_history_dropped :
    handlerPrompt "Q2" [{ role := "user", content := "Q1" },
        { role := "assistant", content := "A1" }] = "Q2"
    ∧ ∀ (q : String) (hs : List HistoryMessage), handlerPrompt q hs = q :=
  ⟨rfl, fun _ _ => rfl⟩

/-- Claim C2: re-running ingestion against the same candidate list, the same
download/upload environment, and the store as left by the first run (its
previous documents plus the names the first run uploaded) uploads nothing:
`uploaded = 0`, `skipped` counts exactly the candidates whose derived
display name is present, and every network event of the second run concerns
a candidate whose display name is not in the store — already-present
candidates are skipped with no fetch and no upload. -/
theorem C2_ingest_idempotent {α : Type} (env : IngestEnv α)
    (existingFiles urls : List String) :
    (ingest env (existingFiles ++ (ingest env existingFiles urls).uploadedNames)
        urls).uploadedCount = 0
    ∧ (ingest env (existingFiles ++ (ingest env existingFiles urls).uploadedNames)
        urls).skippedCount
      = presentCount (existingFiles ++ (ingest env existingFiles urls).uploadedNames) 0 urls
    ∧ ((ingest env (existingFiles ++ (ingest env existingFiles urls).uploadedNames)
        urls).events.all (fun e =>
          !((existingFiles ++ (ingest env existingFiles urls).uploadedNames).contains
            e.docName))) = true := by
  refine ⟨ingest_second_uploaded_zero env existingFiles urls, ?_, ?_⟩
  · exact ingest_skipped_eq_presentCount env _ urls 0
  · exact ingest_events_not_in_existing env _ urls 0

/-- Claim C3: the display names present in the store before a run are
disjoint from the names actually uploaded during the run (every uploaded
name fails the membership test against the pre-run listing); a candidate
whose derived name is already present is counted as skipped, and no fetch
or upload event ever concerns a name present in the pre-run listing. -/
theorem C3_no_duplicate_uploads {α : Type} (env : IngestEnv α)
    (existingFiles urls : List String) :
    ((ingest env existingFiles urls).uploadedNames.all
      (fun n => !(existingFiles.contains n))) = true
    ∧ (ingest env existingFiles urls).skippedCount = presentCount existingFiles 0 urls
    ∧ ((ingest env existingFiles urls).events.all
      (fun e => !(existingFiles.contains e.docName))) = true :=
  ⟨ingest_names_not_in_existing env existingFiles urls 0,
   ingest_skipped_eq_presentCount env existingFiles urls 0,
   ingest_events_not_in_existing env existingFiles urls 0⟩

/-- Claim C4 counterexample: a candidate whose source URL ends in `/` does
NOT receive the synthesized fallback name: `filepath.Base` strips trailing
separators first, so `https://x/` derives the name `x`, not
`document_1.pdf`. -/
theorem C4_counterexample :
    deriveFileName "https://x/" 0 = "x"
    ∧ deriveFileName "https://x/" 0 ≠ fallbackName 0 := by
  exact ⟨rfl, by decide⟩

/-- Claim C4 (amended): the fallback `document_<i+1>.pdf` is synthesized
exactly when `filepath.Base` of the source URL is empty or `.` — an empty
source URL is such a case, while a URL that merely ends in `/` is not (it
receives its last non-empty path segment, e.g. `https://x/` yields `x`) —
and fallback names built for different batch positions never collide. -/
theorem C4_fallback_names :
    (∀ i : Nat, deriveFileName "" i = fallbackName i)
    ∧ deriveFileName "https://x/" 0 = "x"
    ∧ (∀ i j : Nat, fallbackName i = fallbackName j ↔ i = j) :=
  ⟨fun _ => rfl, rfl, fallbackName_inj⟩

/-- Claim C5: the derived top-level source list of `Handler.Query` keeps
exactly the first occurrence of each distinct file name among the file
grounding chunks, in order of first occurrence (the specification-side
`specFirstOcc`); e.g. chunks with names `[fileA, fileB, fileA, fileC]`
yield exactly `[fileA, fileB, fileC]`. -/
theorem C5_source_dedup :
    (∀ chunks : List GroundingChunk,
      extractSources chunks
        = (specFirstOcc (chunks.filterMap GroundingChunk.file)).map
          (fun f => { fileName := f.fileName, uri := f.uri }))
    ∧ extractSources
        [{ file := some { fileName := "fileA", uri := "uA" } },
         { file := some { fileName := "fileB", uri := "uB" } },
         { file := some { fileName := "fileA", uri := "uA2" } },
         { file := some { fileName := "fileC", uri := "uC" } }]
      = [{ fileName := "fileA", uri := "uA" },
         { fileName := "fileB", uri := "uB" },
         { fileName := "fileC", uri := "uC" }] :=
  ⟨extractSources_eq_spec, rfl⟩

/-- Claim C6: when parsing succeeds, the normalized citation list is exactly
one `Citation` per raw citation entry across all candidates, in order
(none dropped); each normalized citation preserves the raw start and end
offsets and carries a `Source` exactly when the raw entry has a non-empty
URI (an entry without a URI yields a citation with zero sources). -/
theorem C6_citation_preservation (resp : GenerateContentResponse)
    (p : PromptResponse) (rc : RawCitation)
    (h : parseResponse resp = Except.ok p) :
    p.citations = (resp.candidates.flatMap rawCitationsOf).map normalizeCitation
    ∧ (normalizeCitation rc).startIndex = rc.startIndex
    ∧ (normalizeCitation rc).endIndex = rc.endIndex
    ∧ (normalizeCitation rc).sources
      = (if rc.uri = "" then [] else [{ title := rc.title, uri := rc.uri }]) := by
  refine ⟨?_, rfl, rfl, ?_⟩
  · have hc := (parseAux_ok resp.candidates _ p h).2.1
    simpa using hc
  · by_cases hu : rc.uri = "" <;> simp [normalizeCitation, hu]

/-- Claim C6 witness: a response with one raw citation `start=10, end=25`
and no URI parses successfully and yields exactly
`Citation {startIndex := 10, endIndex := 25, sources := []}`. -/
theorem C6_citation_preservation_witness :
    promptCitationSample.citations
      = (respCitationSample.candidates.flatMap rawCitationsOf).map normalizeCitation
    ∧ (normalizeCitation rawCitationSample).startIndex = rawCitationSample.startIndex
    ∧ (normalizeCitation rawCitationSample).endIndex = rawCitationSample.endIndex
    ∧ (normalizeCitation rawCitationSample).sources
      = (if rawCitationSample.uri = "" then []
         else [{ title := rawCitationSample.title, uri := rawCitationSample.uri }]) :=
  C6_citation_preservation respCitationSample promptCitationSample rawCitationSample rfl

/-- Claim C7 counterexample: a raw chunk that carries both web fields and
retrieved-context fields with a non-empty URI normalizes to a
`GroundingChunk` with BOTH the Web and the File variant set — the
normalizer tests the two conditions independently, so a chunk is not
always exactly one of the two. -/
theorem C7_counterexample :
    (normalizeChunk rawBothChunkSample).web.isSome = true
    ∧ (normalizeChunk rawBothChunkSample).file.isSome = true :=
  ⟨rfl, rfl⟩

/-- Claim C7 (amended): a normalized chunk carries the Web variant iff the
raw chunk has web fields, and the File variant iff it has retrieved-context
fields with a non-empty URI; the two conditions are independent (a raw
chunk carrying both yields both variants), and a chunk matching neither
classification yields an empty chunk entry rather than an error. -/
theorem C7_chunk_classification (ch : RawGroundingChunk) :
    (normalizeChunk ch).web.isSome = ch.web.isSome
    ∧ ((normalizeChunk ch).file.isSome = true
        ↔ ∃ rc, ch.retrievedContext = some rc ∧ rc.uri ≠ "")
    ∧ normalizeChunk { web := none, retrievedContext := none }
      = { web := none, file := none } := by
  refine ⟨?_, ?_, rfl⟩
  · cases hw : ch.web <;> simp [normalizeChunk, hw]
  · cases hrc : ch.retrievedContext with
    | none => simp [normalizeChunk, hrc]
    | some rc => by_cases hu : rc.uri = "" <;> simp [normalizeChunk, hrc, hu]

/-- Claim C8 (code evaluation at the failing input): `parseResponse` is not
total — on a response whose single candidate has nil `Content`, the Go code
dereferences the nil pointer while ranging over `cand.Content.Parts` and
panics (modelled as `Except.error ()`), instead of degrading the absent
field to an empty collection. -/
theorem C8_nil_content_panics :
    parseResponse respNilContentSample = Except.error () := rfl

/-- Claim C9: when parsing succeeds, the parts of the result are exactly the
non-empty text parts of every candidate in emitted order, and the answer
assembled by `Handler.Query` is their concatenation. -/
theorem C9_answer_concatenation (resp : GenerateContentResponse)
    (p : PromptResponse) (h : parseResponse resp = Except.ok p) :
    p.parts = specAnswerTexts resp
    ∧ combineAnswer p.parts = String.join (specAnswerTexts resp) := by
  have hp := (parseAux_ok resp.candidates _ p h).1
  have hps : p.parts = specAnswerTexts resp := by
    rw [specAnswerTexts_eq]
    simpa using hp
  exact ⟨hps, by rw [hps]; rfl⟩

/-- Claim C9 witness: two candidates with text parts
`["Hello", "", " "]` and `["world", ""]` parse to the non-empty parts
`["Hello", " ", "world"]` of both candidates, concatenated to
`"Hello world"`. -/
theorem C9_answer_concatenation_witness :
    promptAnswerSample.parts = specAnswerTexts respAnswerSample
    ∧ combineAnswer promptAnswerSample.parts = String.join (specAnswerTexts respAnswerSample) :=
  C9_answer_concatenation respAnswerSample promptAnswerSample rfl

/-- Claim C10: when parsing succeeds, the result's `GroundingSupport` is the
normalization of the grounding metadata of the LAST candidate that carries
one (or absent when none does): the accumulator is overwritten per
candidate, so the grounding chunks and web search queries of every earlier
candidate are discarded, even though text parts of all candidates are
concatenated. -/
theorem C10_last_grounding_wins (resp : GenerateContentResponse)
    (p : PromptResponse) (h : parseResponse resp = Except.ok p) :
    p.groundingSupport
      = (lastGroundingMetadata resp.candidates).map normalizeGroundingMetadata := by
  have hg := (parseAux_ok resp.candidates _ p h).2.2
  cases hl : lastGroundingMetadata resp.candidates with
  | some gm => rw [hl] at hg; simpa using hg
  | none => rw [hl] at hg; simpa using hg

/-- Claim C10 witness: with two candidates both carrying grounding metadata
(the first with file chunk `a.pdf` and query `q1`, the second with file
chunk `b.pdf` and query `q2`), the parsed result's grounding support holds
only the second candidate's chunk and query. -/
theorem C10_last_grounding_wins_witness :
    promptGroundingSample.groundingSupport
      = (lastGroundingMetadata respGroundingSample.candidates).map normalizeGroundingMetadata :=
  C10_last_grounding_wins respGroundingSample promptGroundingSample rfl

end Rag
